import Mathlib

/-!
Verification of the memory-enhanced personal assistant (`assistant.py`).

The development shallowly embeds the program: the date/duration parsing
helpers, the five tools, the mem0 memory store boundary, the two-node
agent graph (`agent` / `tools` nodes with conditional routing), the
`MemorySaver` checkpointer and the conversation runner.  Pure Python
functions become Lean functions; the reasoning model is an oracle
parameter; a tool that raises an uncaught exception is modelled with
`Option` (`none` = raise).
-/

/- ### Characters and digits -/

/-- ASCII decimal digit test, matching the digit classes used by
`datetime.strptime` on the formats appearing in the program. -/
def isDig (c : Char) : Bool := decide ('0' ≤ c) && decide (c ≤ '9')

/-- Numeric value of a digit character. -/
def digitVal (c : Char) : Nat := c.toNat - 48

/- ### Proleptic Gregorian calendar (as implemented by Python `datetime`) -/

def isLeapYear (y : Nat) : Bool :=
  (decide (y % 4 = 0) && decide (¬ y % 100 = 0)) || decide (y % 400 = 0)

def daysInMonth (y m : Nat) : Nat :=
  if m = 2 then (if isLeapYear y then 29 else 28)
  else if m = 4 ∨ m = 6 ∨ m = 9 ∨ m = 11 then 30
  else 31

/-- Day count before January 1 of year `y` (proleptic Gregorian,
`date.toordinal` convention: ordinal 1 = 0001-01-01). -/
def daysBeforeYear (y : Nat) : Nat :=
  365 * (y - 1) + (y - 1) / 4 - (y - 1) / 100 + (y - 1) / 400

def daysBeforeMonth (y m : Nat) : Nat :=
  (List.range (m - 1)).foldl (fun acc i => acc + daysInMonth y (i + 1)) 0

def toOrdinal (y m d : Nat) : Nat :=
  daysBeforeYear y + daysBeforeMonth y m + d

/-- Weekday names as produced by `strftime("%A")` in the C locale,
indexed so that index 0 is Monday (= `date.weekday()` convention). -/
def weekdayNames : List String :=
  ["Monday", "Tuesday", "Wednesday", "Thursday", "Friday", "Saturday", "Sunday"]

def dayName (y m d : Nat) : String :=
  weekdayNames.getD ((toOrdinal y m d - 1) % 7) ""

/-- Validity conditions enforced by the `datetime` constructor after the
`strptime` regular expression has matched (the regex already bounds the
fields; the constructor additionally checks the year range and the day
against the month length). -/
def dateValid (y m d : Nat) : Bool :=
  decide (1 ≤ y) && decide (y ≤ 9999) && decide (1 ≤ m) && decide (m ≤ 12) &&
  decide (1 ≤ d) && decide (d ≤ daysInMonth y m)

structure DateTime where
  year : Nat
  month : Nat
  day : Nat
  hour : Nat
  minute : Nat
deriving DecidableEq, Repr

def dateTimeValid (dt : DateTime) : Bool :=
  dateValid dt.year dt.month dt.day && decide (dt.hour ≤ 23) && decide (dt.minute ≤ 59)

/- ### `strptime` on the two formats used by the program

`datetime.strptime` compiles `%Y` to four digits, `%m` to the ordered
alternatives `1[0-2]|0[1-9]|[1-9]`, `%d` to `3[01]|[12][0-9]|0[1-9]|[1-9]`,
`%H` to `2[0-3]|[0-1][0-9]|[0-9]`, `%M` to `[0-5][0-9]|[0-9]`, matches the
pattern with backtracking from the start of the string, and raises
`ValueError` either when the pattern does not match or when unconverted
data remains at the end.  Each `...Cands` function lists the candidate
(value, remaining input) pairs of one group in regex alternative order;
`firstSome` implements backtracking over them. -/

def firstSome {α β : Type} : List α → (α → Option β) → Option β
  | [], _ => none
  | a :: rest, f =>
    match f a with
    | some b => some b
    | none => firstSome rest f

def monthCands : List Char → List (Nat × List Char)
  | c1 :: c2 :: rest =>
    (if c1 = '1' ∧ ('0' ≤ c2 ∧ c2 ≤ '2') then [(10 + digitVal c2, rest)] else []) ++
    (if c1 = '0' ∧ ('1' ≤ c2 ∧ c2 ≤ '9') then [(digitVal c2, rest)] else []) ++
    (if '1' ≤ c1 ∧ c1 ≤ '9' then [(digitVal c1, c2 :: rest)] else [])
  | [c1] => if '1' ≤ c1 ∧ c1 ≤ '9' then [(digitVal c1, [])] else []
  | [] => []

def dayCands : List Char → List (Nat × List Char)
  | c1 :: c2 :: rest =>
    (if c1 = '3' ∧ ('0' ≤ c2 ∧ c2 ≤ '1') then [(30 + digitVal c2, rest)] else []) ++
    (if ('1' ≤ c1 ∧ c1 ≤ '2') ∧ isDig c2 = true then
      [(10 * digitVal c1 + digitVal c2, rest)] else []) ++
    (if c1 = '0' ∧ ('1' ≤ c2 ∧ c2 ≤ '9') then [(digitVal c2, rest)] else []) ++
    (if '1' ≤ c1 ∧ c1 ≤ '9' then [(digitVal c1, c2 :: rest)] else [])
  | [c1] => if '1' ≤ c1 ∧ c1 ≤ '9' then [(digitVal c1, [])] else []
  | [] => []

def hourCands : List Char → List (Nat × List Char)
  | c1 :: c2 :: rest =>
    (if c1 = '2' ∧ ('0' ≤ c2 ∧ c2 ≤ '3') then [(20 + digitVal c2, rest)] else []) ++
    (if ('0' ≤ c1 ∧ c1 ≤ '1') ∧ isDig c2 = true then
      [(10 * digitVal c1 + digitVal c2, rest)] else []) ++
    (if isDig c1 = true then [(digitVal c1, c2 :: rest)] else [])
  | [c1] => if isDig c1 = true then [(digitVal c1, [])] else []
  | [] => []

def minuteCands : List Char → List (Nat × List Char)
  | c1 :: c2 :: rest =>
    (if ('0' ≤ c1 ∧ c1 ≤ '5') ∧ isDig c2 = true then
      [(10 * digitVal c1 + digitVal c2, rest)] else []) ++
    (if isDig c1 = true then [(digitVal c1, c2 :: rest)] else [])
  | [c1] => if isDig c1 = true then [(digitVal c1, [])] else []
  | [] => []

/-- `%Y`: exactly four digits. -/
def yearOf : List Char → Option (Nat × List Char)
  | a :: b :: c :: d :: rest =>
    if isDig a = true ∧ isDig b = true ∧ isDig c = true ∧ isDig d = true then
      some (1000 * digitVal a + 100 * digitVal b + 10 * digitVal c + digitVal d, rest)
    else none
  | _ => none

/-- Regex match of `%Y-%m-%d` from the start of the input: the first match
in backtracking order, together with the unconsumed remainder.  The day
group is final in the pattern, so its first matching alternative wins
regardless of leftover input. -/
def matchYMD (cs : List Char) : Option (Nat × Nat × Nat × List Char) :=
  match yearOf cs with
  | none => none
  | some (y, r0) =>
    match r0 with
    | '-' :: r1 =>
      firstSome (monthCands r1) (fun mc =>
        match mc.2 with
        | '-' :: r2 =>
          match dayCands r2 with
          | [] => none
          | dc :: _ => some (y, mc.1, dc.1, dc.2)
        | _ => none)
    | _ => none

/-- Regex match of `%Y-%m-%d %H:%M` from the start of the input. -/
def matchYMDHM (cs : List Char) : Option (DateTime × List Char) :=
  match yearOf cs with
  | none => none
  | some (y, r0) =>
    match r0 with
    | '-' :: r1 =>
      firstSome (monthCands r1) (fun mc =>
        match mc.2 with
        | '-' :: r2 =>
          firstSome (dayCands r2) (fun dc =>
            match dc.2 with
            | ' ' :: r3 =>
              firstSome (hourCands r3) (fun hc =>
                match hc.2 with
                | ':' :: r4 =>
                  match minuteCands r4 with
                  | [] => none
                  | mnc :: _ => some (⟨y, mc.1, dc.1, hc.1, mnc.1⟩, mnc.2)
                | _ => none)
            | _ => none)
        | _ => none)
    | _ => none

/-- `datetime.strptime(s, "%Y-%m-%d")`: `some` on success, `none` for the
`ValueError` raised on a failed match, unconverted trailing data, or an
invalid calendar date. -/
def strptimeYMD (s : String) : Option (Nat × Nat × Nat) :=
  match matchYMD s.data with
  | some (y, m, d, []) => if dateValid y m d then some (y, m, d) else none
  | _ => none

/-- `datetime.strptime(s, "%Y-%m-%d %H:%M")`. -/
def strptimeYMDHM (s : String) : Option DateTime :=
  match matchYMDHM s.data with
  | some (dt, []) => if dateTimeValid dt then some dt else none
  | _ => none

/-- `parse_date`: try `%Y-%m-%d %H:%M` first; on `ValueError` fall back to
`%Y-%m-%d` (midnight); a failure of the fallback propagates (`none`). -/
def parse_date (date_string : String) : Option DateTime :=
  match strptimeYMDHM date_string with
  | some dt => some dt
  | none => (strptimeYMD date_string).map (fun x => ⟨x.1, x.2.1, x.2.2, 0, 0⟩)

/- ### Python `int()` on strings -/

/-- Characters stripped by `int()` around the digits (ASCII whitespace). -/
def isPyStrip (c : Char) : Bool :=
  c = ' ' ∨ c = '\t' ∨ c = '\n' ∨ c = '\r' ∨ c = '\x0b' ∨ c = '\x0c'

/-- Digit run with optional single underscores between digits. -/
def digitsUAux : List Char → Nat → Option Nat
  | [], acc => some acc
  | '_' :: c :: rest, acc =>
    if isDig c = true then digitsUAux rest (acc * 10 + digitVal c) else none
  | ['_'], _ => none
  | c :: rest, acc =>
    if isDig c = true then digitsUAux rest (acc * 10 + digitVal c) else none

def digitsU : List Char → Option Nat
  | [] => none
  | c :: rest => if isDig c = true then digitsUAux rest (digitVal c) else none

/-- `int(s)` for a base-10 string: strip whitespace, optional sign, digits
with underscore separators; `none` models the `ValueError`. -/
def pythonInt (s : String) : Option Int :=
  let cs := ((s.data.dropWhile isPyStrip).reverse.dropWhile isPyStrip).reverse
  match cs with
  | '+' :: rest => (digitsU rest).map Int.ofNat
  | '-' :: rest => (digitsU rest).map (fun n => -(Int.ofNat n))
  | rest => (digitsU rest).map Int.ofNat

/- ### `timedelta` -/

/-- `timedelta(minutes=n)`, represented by its total seconds.  Python
normalises to `(days, seconds)` with `0 ≤ seconds < 86400` and raises
`OverflowError` (which is *not* a `ValueError`) when the day count
exceeds 999999999 in magnitude; `none` models that raise. -/
def timedeltaOfMinutes (n : Int) : Option Int :=
  let secs := n * 60
  if ((secs.fdiv 86400).natAbs ≤ 999999999) then some secs else none

def pad2 (n : Nat) : String :=
  if n < 10 then "0" ++ toString n else toString n

def pad4 (n : Nat) : String :=
  if n < 10 then "000" ++ toString n
  else if n < 100 then "00" ++ toString n
  else if n < 1000 then "0" ++ toString n
  else toString n

/-- `str(timedelta)`: `[D day(s), ]H:MM:SS`. -/
def timedeltaStr (secs : Int) : String :=
  let d := secs.fdiv 86400
  let r := (secs.fmod 86400).toNat
  let core := toString (r / 3600) ++ ":" ++ pad2 ((r % 3600) / 60) ++ ":" ++ pad2 (r % 60)
  if d = 0 then core
  else toString d ++ (if d = 1 ∨ d = -1 then " day, " else " days, ") ++ core

/- ### Formatting used by the tools -/

/-- `strftime("%Y-%m-%d")`. -/
def fmtYMD (dt : DateTime) : String :=
  pad4 dt.year ++ "-" ++ pad2 dt.month ++ "-" ++ pad2 dt.day

/-- `strftime("%Y-%m-%d %H:%M")`. -/
def fmtYMDHM (dt : DateTime) : String :=
  fmtYMD dt ++ " " ++ pad2 dt.hour ++ ":" ++ pad2 dt.minute

/-- `datetime.isoformat()` with zero seconds and microseconds. -/
def isoformat (dt : DateTime) : String :=
  fmtYMD dt ++ "T" ++ pad2 dt.hour ++ ":" ++ pad2 dt.minute ++ ":00"

def hexDigit (n : Nat) : String :=
  if n < 10 then toString n
  else if n = 10 then "a" else if n = 11 then "b" else if n = 12 then "c"
  else if n = 13 then "d" else if n = 14 then "e" else "f"

/-- JSON string escaping as produced by `json.dumps` on ASCII text. -/
def jsonEscapeChar (c : Char) : String :=
  if c = '"' then "\\\""
  else if c = '\\' then "\\\\"
  else if c = '\n' then "\\n"
  else if c = '\t' then "\\t"
  else if c = '\r' then "\\r"
  else if c = '\x08' then "\\b"
  else if c = '\x0c' then "\\f"
  else if c.toNat < 32 then "\\u00" ++ hexDigit (c.toNat / 16) ++ hexDigit (c.toNat % 16)
  else String.singleton c

def jsonQuote (s : String) : String :=
  "\"" ++ String.join (s.data.map jsonEscapeChar) ++ "\""

/-- `repr` of a stored text, as it appears inside `str(list)`. -/
def pyRepr (s : String) : String := "\x27" ++ s ++ "\x27"

/-- Python `str` of a list of stored texts. -/
def pyStrList (xs : List String) : String :=
  "[" ++ String.intercalate ", " (xs.map pyRepr) ++ "]"

/- ### Substring utilities (used to state the literal-message claims) -/

def startsWithChars : List Char → List Char → Bool
  | [], _ => true
  | _ :: _, [] => false
  | a :: as, b :: bs => a = b && startsWithChars as bs

def containsSeq (p : List Char) : List Char → Bool
  | [] => startsWithChars p []
  | c :: rest => startsWithChars p (c :: rest) || containsSeq p rest

/-- `sub` occurs contiguously in `s`. -/
def strContains (s sub : String) : Bool := containsSeq sub.data s.data

/- ### The mem0 Memory Store boundary -/

/-- Modelled from the spec: the Memory Store is an external collaborator
(`mem0` with a Chroma vector store) supporting `add(text, user_id)` and
`search(query, user_id)`; searches are always scoped by `user_id`, with
an opaque semantic relevance judgment abstracted by the `relevant`
field.  Records keep their `user_id` tag. -/
structure Mem0 where
  relevant : String → String → Bool
  records : List (String × String)

def Mem0.add (m : Mem0) (text user_id : String) : Mem0 :=
  { m with records := m.records ++ [(user_id, text)] }

/-- Modelled from the spec: `search` returns only records stored under the
given `user_id`, filtered by semantic relevance to the query. -/
def Mem0.searchRecords (m : Mem0) (query user_id : String) : List (String × String) :=
  m.records.filter (fun r => r.1 == user_id && m.relevant query r.2)

def Mem0.search (m : Mem0) (query user_id : String) : List String :=
  (m.searchRecords query user_id).map (fun r => r.2)

def emptyMem : Mem0 := ⟨fun _ _ => true, []⟩

/- ### The five tools -/

/-- External clock: `datetime.now()` rendered by `strftime("%Y-%m-%d")`. -/
structure Env where
  now : String

/-- `get_current_date`. -/
def get_current_date (env : Env) : String := env.now

/-- `get_day_of_week`: parses only `%Y-%m-%d` and catches the
`ValueError` into a literal message. -/
def get_day_of_week (date_string : String) : String :=
  match strptimeYMD date_string with
  | some (y, m, d) => dayName y m d
  | none => "Invalid date format. Please use YYYY-MM-DD."

/-- `search_memories`: `str(mem0.search(query, user_id=email))`. -/
def search_memories (query email : String) (m : Mem0) : String :=
  pyStrList (Mem0.search m query email)

/-- `add_schedule_item`: parse the date, parse the duration as integer
minutes, build the JSON text, store it under `email`, and return a
confirmation; a `ValueError` from either parse yields the literal error
string, while a `timedelta` `OverflowError` escapes the `except
ValueError` handler (`none` = the call raises). -/
def add_schedule_item (email date_time duration description : String) (m : Mem0) :
    Option (String × Mem0) :=
  match parse_date date_time with
  | none => some ("Invalid date, time, or duration format. Please try again.", m)
  | some parsed_date_time =>
    match pythonInt duration with
    | none => some ("Invalid date, time, or duration format. Please try again.", m)
    | some n =>
      match timedeltaOfMinutes n with
      | none => none
      | some parsed_duration =>
        let schedule_item : String :=
          "\x7b\"date_time\": \"" ++ isoformat parsed_date_time ++
          "\", \"duration\": \"" ++ timedeltaStr parsed_duration ++
          "\", \"description\": " ++ jsonQuote description ++ "\x7d"
        let m2 := Mem0.add m ("Schedule: " ++ schedule_item) email
        some ("Added to schedule: " ++ description ++ " on " ++
              fmtYMDHM parsed_date_time ++ " for " ++ duration ++ " minutes", m2)

/-- `get_schedule`: parse both ends of the range, search the store with a
rendered query, and stringify; both `ValueError`s are caught into the
literal message, and an empty search result yields its own literal. -/
def get_schedule (email start_date end_date : String) (m : Mem0) : String :=
  match parse_date start_date with
  | none => "Invalid date format. Please use YYYY-MM-DD or YYYY-MM-DD HH:MM."
  | some s =>
    match parse_date end_date with
    | none => "Invalid date format. Please use YYYY-MM-DD or YYYY-MM-DD HH:MM."
    | some e =>
      let query := "Schedule: " ++ fmtYMD s ++ " to " ++ fmtYMD e
      let schedule_items := Mem0.search m query email
      match schedule_items with
      | [] => "No schedule items found for the given date range."
      | _ => pyStrList schedule_items

/- ### Messages and the Agent Graph -/

/-- A structured tool-call request emitted by the Reasoning Model:
one of the five tools with its arguments. -/
inductive ToolReq where
  | get_current_date
  | get_day_of_week (date_string : String)
  | search_memories (query : String) (email : String)
  | add_schedule_item (email : String) (date_time : String)
      (duration : String) (description : String)
  | get_schedule (email : String) (start_date : String) (end_date : String)
deriving DecidableEq, Repr

/-- A tool call with the id the model attached to it (the id links the
eventual `ToolMessage` back to the request). -/
structure ToolCall where
  id : String
  req : ToolReq
deriving DecidableEq, Repr

/-- Conversation messages: `human`/`ai`/`tool` live in the state;
`system` is only prepended transiently inside `call_model`. -/
inductive Msg where
  | human (content : String)
  | ai (content : String) (tool_calls : List ToolCall)
  | tool (content : String) (tool_call_id : String)
  | system (content : String)
deriving DecidableEq, Repr

def Msg.content : Msg → String
  | .human c => c
  | .ai c _ => c
  | .tool c _ => c
  | .system c => c

def toolMsgId : Msg → String
  | .tool _ i => i
  | _ => ""

/-- `messages[-1].content` (the graph only evaluates it on non-empty
histories: the runner always seeds a user message). -/
def lastContent (msgs : List Msg) : String :=
  (msgs.getLast?).elim "" Msg.content

/-- The `State` TypedDict of the graph. -/
structure AgentState where
  messages : List Msg
  email : String
deriving DecidableEq, Repr

/-- A Reasoning Model response: assistant content plus requested calls. -/
structure AIResp where
  content : String
  tool_calls : List ToolCall

/-- The Reasoning Model as an oracle over the full prompt. -/
def Oracle := List Msg → AIResp

/-- The system instruction built by `call_model` (fixed policy text with
the user\x27s email interpolated). -/
def system_message_content (email : String) : String :=
  "You are a helpful assistant with access to the user\x27s past interactions, schedule, and awareness of the current date. \n" ++
  "    The user\x27s email is " ++ email ++ ". Before responding to the user, always follow these steps in order:\n\n" ++
  "    1. Use the get_current_date tool to get today\x27s date.\n" ++
  "    2. Use the search_memories tool to retrieve relevant past interactions and schedule items. The search_memories tool takes two arguments: \n" ++
  "       the query (which should be the user\x27s latest message) and the user\x27s email.\n" ++
  "    3. If the user asks about a specific date or day of the week, use the get_day_of_week tool to determine it.\n" ++
  "    4. If the user wants to add a schedule item, use the add_schedule_item tool. It requires email, date_time, duration (in minutes), and description.\n" ++
  "    5. If the user asks about their schedule for a specific period, use the get_schedule tool. It requires email, start_date, and end_date.\n\n" ++
  "    Always use these tools when appropriate, even if you think there might not be relevant information. If no relevant data is found, \n" ++
  "    acknowledge this in your response and proceed based on your general knowledge.\n\n" ++
  "    Incorporate the retrieved information, date awareness, schedule details, and any relevant memories into your responses to provide \n" ++
  "    personalized and context-aware answers. Be sure to reference past interactions and schedule items when appropriate, and use the \n" ++
  "    current date information to make your responses more relevant and timely.\n\n" ++
  "    Remember to always use these tools in the order specified above before formulating your response."

/-- `call_model`: prepend the system message, invoke the model, append
the exchange (`messages[-1]` + response content) to mem0 under the
state\x27s email, and append the response to the message history. -/
def call_model (oracle : Oracle) (st : AgentState) (m0 : Mem0) : AgentState × Mem0 :=
  let full_messages := Msg.system (system_message_content st.email) :: st.messages
  let response := oracle full_messages
  let m1 := m0.add ("User: " ++ lastContent st.messages ++ "\nAssistant: " ++ response.content)
    st.email
  ({ st with messages := st.messages ++ [Msg.ai response.content response.tool_calls] }, m1)

/-- Execute one requested tool call against the store; `none` from the
raw tool (an uncaught exception inside the tool function) is caught by
the `ToolNode` wrapper and surfaced as an error-text tool message, with
the store left as the tool left it (the raise happens before any write). -/
def runToolRaw (env : Env) (m : Mem0) : ToolReq → Option (String × Mem0)
  | .get_current_date => some (get_current_date env, m)
  | .get_day_of_week ds => some (get_day_of_week ds, m)
  | .search_memories q e => some (search_memories q e m, m)
  | .add_schedule_item e dt dur desc => add_schedule_item e dt dur desc m
  | .get_schedule e sd ed => some (get_schedule e sd ed m, m)

def toolErrorText : String := "Error: OverflowError()\n Please fix your mistakes."

def runToolCall (env : Env) (m : Mem0) (tc : ToolCall) : Msg × Mem0 :=
  match runToolRaw env m tc.req with
  | some (out, m1) => (Msg.tool out tc.id, m1)
  | none => (Msg.tool toolErrorText tc.id, m)

/-- The `ToolNode`: execute every requested call in request order,
threading the store, and produce one tool-result message per call. -/
def tool_node (env : Env) : Mem0 → List ToolCall → List Msg × Mem0
  | m, [] => ([], m)
  | m, tc :: rest =>
    let p := runToolCall env m tc
    let q := tool_node env p.2 rest
    (p.1 :: q.1, q.2)

/-- Tool calls of the most recent message (empty for non-model messages;
the graph only inspects this right after the agent node). -/
def lastToolCalls (msgs : List Msg) : List ToolCall :=
  match msgs.getLast? with
  | some (Msg.ai _ tcs) => tcs
  | _ => []

/-- The two routing targets of the conditional edge out of `agent`. -/
inductive Route where
  | tools
  | stop
deriving DecidableEq, Repr

/-- `should_continue`: `"tools"` when the last message carries tool
calls, `END` otherwise. -/
def should_continue (msgs : List Msg) : Route :=
  if (lastToolCalls msgs).isEmpty then Route.stop else Route.tools

inductive NodeName where
  | agent
  | tools
deriving DecidableEq, Repr

/-- The compiled graph: entry point `agent`; conditional edges out of
`agent` via `should_continue`; unconditional edge `tools → agent`.
`fuel` bounds the number of node visits (the Python loop has no bound;
`none` means the fuel ran out before `END`). -/
def runFrom (oracle : Oracle) (env : Env) :
    Nat → NodeName → AgentState → Mem0 → Option (AgentState × Mem0)
  | 0, _, _, _ => none
  | fuel + 1, NodeName.agent, st, m0 =>
    let p := call_model oracle st m0
    match should_continue p.1.messages with
    | Route.stop => some (p.1, p.2)
    | Route.tools => runFrom oracle env fuel NodeName.tools p.1 p.2
  | fuel + 1, NodeName.tools, st, m0 =>
    let q := tool_node env m0 (lastToolCalls st.messages)
    runFrom oracle env fuel NodeName.agent
      { st with messages := st.messages ++ q.1 } q.2

/-- `app.invoke` on a seeded state: drive the graph from the entry
point to `END`. -/
def runTurn (oracle : Oracle) (env : Env) (fuel : Nat) (st : AgentState) (m0 : Mem0) :
    Option (AgentState × Mem0) :=
  runFrom oracle env fuel NodeName.agent st m0

/- ### Checkpointer and conversation runner -/

/-- `MemorySaver` checkpoints keyed by `thread_id`; the latest
checkpoint for a thread is the first match. -/
abbrev MemorySaver := List (String × List Msg)

def lookupThread (cp : MemorySaver) (tid : String) : List Msg :=
  match cp.find? (fun p => p.1 == tid) with
  | some p => p.2
  | none => []

def saveThread (cp : MemorySaver) (tid : String) (msgs : List Msg) : MemorySaver :=
  (tid, msgs) :: cp

/-- `run_conversation`: resume the thread keyed by the email, append the
new user message (the `add_messages` reducer), run the graph, return the
final assistant content and persist the final history. -/
def run_conversation (oracle : Oracle) (env : Env) (fuel : Nat)
    (user_input email : String) (cp : MemorySaver) (m0 : Mem0) :
    Option (String × MemorySaver × Mem0) :=
  let prior := lookupThread cp email
  let st : AgentState := { messages := prior ++ [Msg.human user_input], email := email }
  match runTurn oracle env fuel st m0 with
  | some (fin, m1) => some (lastContent fin.messages, saveThread cp email fin.messages, m1)
  | none => none

/- ### Helper lemmas -/

theorem parse_date_hm {s : String} {dt : DateTime}
    (h : strptimeYMDHM s = some dt) : parse_date s = some dt := by
  unfold parse_date
  rw [h]

theorem timedeltaOfMinutes_some {n td : Int}
    (h : timedeltaOfMinutes n = some td) : td = n * 60 := by
  simp only [timedeltaOfMinutes] at h
  split at h
  · exact (Option.some_inj.mp h).symm
  · exact absurd h (by simp)

/- ### C7 -/

/-- C7: the shared date parser tries `YYYY-MM-DD HH:MM` first and falls
back to `YYYY-MM-DD` only when the first format fails; a duration string
is an integer count of minutes converted to a duration value (here: its
total seconds are 60 times the parsed minute count). -/
theorem C7_parse_date_order (s : String) :
    (∀ dt, strptimeYMDHM s = some dt → parse_date s = some dt)
  ∧ (strptimeYMDHM s = none →
      parse_date s = (strptimeYMD s).map (fun x => ⟨x.1, x.2.1, x.2.2, 0, 0⟩))
  ∧ (∀ n td : Int, timedeltaOfMinutes n = some td → td = n * 60) := by
  refine ⟨fun dt h => parse_date_hm h, fun h => ?_, fun n td h => timedeltaOfMinutes_some h⟩
  unfold parse_date
  rw [h]

/-- C7 witness: both formats on concrete inputs, and a concrete duration. -/
theorem C7_parse_date_order_witness :
    parse_date "2024-03-15 14:00" = some ⟨2024, 3, 15, 14, 0⟩ ∧
    parse_date "2024-03-15" = some ⟨2024, 3, 15, 0, 0⟩ ∧
    (1800 : Int) = 30 * 60 := by
  refine ⟨(C7_parse_date_order "2024-03-15 14:00").1 _ (by decide), ?_, ?_⟩
  · have h := (C7_parse_date_order "2024-03-15").2.1 (by decide)
    rw [h]; decide
  · exact (C7_parse_date_order "x").2.2 30 1800 (by decide)

/- ### C6 -/

/-- C6: for every date string accepted by the bare `YYYY-MM-DD` parse,
`get_day_of_week` returns the weekday name of that date; for every
input the parse rejects it returns the literal invalid-format message
instead of raising. -/
theorem C6_day_of_week (s : String) (y m d : Nat) :
    (strptimeYMD s = some (y, m, d) →
      get_day_of_week s = dayName y m d ∧ dayName y m d ∈ weekdayNames)
  ∧ (strptimeYMD s = none →
      get_day_of_week s = "Invalid date format. Please use YYYY-MM-DD.") := by
  constructor
  · intro h
    constructor
    · unfold get_day_of_week
      rw [h]
    · unfold dayName
      have h7 : (toOrdinal y m d - 1) % 7 < 7 := Nat.mod_lt _ (by norm_num)
      set k := (toOrdinal y m d - 1) % 7 with hk
      interval_cases k <;> simp [weekdayNames]
  · intro h
    unfold get_day_of_week
    rw [h]

/-- C6 witness: `2024-01-01` is a Monday; `01-01-2024` is rejected with
the literal message. -/
theorem C6_day_of_week_witness :
    get_day_of_week "2024-01-01" = "Monday" ∧
    get_day_of_week "01-01-2024" = "Invalid date format. Please use YYYY-MM-DD." := by
  constructor
  · have h := (C6_day_of_week "2024-01-01" 2024 1 1).1 (by decide)
    rw [h.1]; decide
  · exact (C6_day_of_week "01-01-2024" 0 0 0).2 (by decide)

/- ### C9 -/

theorem add_schedule_item_error_case (email date_time duration description : String)
    (m : Mem0) (h : parse_date date_time = none ∨ pythonInt duration = none) :
    add_schedule_item email date_time duration description m =
      some ("Invalid date, time, or duration format. Please try again.", m) := by
  cases hp : parse_date date_time with
  | none => simp [add_schedule_item, hp]
  | some dt =>
    rcases h with h | h
    · exact absurd hp (by rw [h]; simp)
    · simp [add_schedule_item, hp, h]

/-- C9: when either the date-time string or the duration string fails to
parse, `add_schedule_item` performs no store write at all: it returns
the error string together with the unchanged store (both parses happen
before the single `add`). -/
theorem C9_no_write_on_parse_failure (email date_time duration description : String)
    (m : Mem0) (h : parse_date date_time = none ∨ pythonInt duration = none) :
    add_schedule_item email date_time duration description m =
      some ("Invalid date, time, or duration format. Please try again.", m) :=
  add_schedule_item_error_case email date_time duration description m h

/-- C9 witness: a non-integer duration leaves the empty store unchanged. -/
theorem C9_no_write_on_parse_failure_witness :
    add_schedule_item "u@example.com" "2024-03-15" "thirty" "Dentist" emptyMem =
      some ("Invalid date, time, or duration format. Please try again.", emptyMem) :=
  C9_no_write_on_parse_failure "u@example.com" "2024-03-15" "thirty" "Dentist" emptyMem
    (Or.inr (by decide))

/- ### C4 (amended) -/

/-- C4 as amended: when the date-time parses and the duration is an
integer whose value keeps the `timedelta` within Python\x27s day bound,
`add_schedule_item` returns the confirmation echoing the parsed
date/time, the duration string and the description; on a parse failure
of either field it returns the literal error message (which begins with
"Invalid date, time, or duration format") instead of raising.  (The
claim\x27s unbounded version is refuted by `C4_counterexample`: an
integer duration large enough to overflow `timedelta` raises
`OverflowError`, which `except ValueError` does not catch.) -/
theorem C4_add_schedule_item_amended (email date_time duration description : String)
    (m : Mem0) :
    (∀ dt n, parse_date date_time = some dt → pythonInt duration = some n →
      ((n * 60).fdiv 86400).natAbs ≤ 999999999 →
      (add_schedule_item email date_time duration description m).map Prod.fst =
        some ("Added to schedule: " ++ description ++ " on " ++ fmtYMDHM dt ++
              " for " ++ duration ++ " minutes"))
  ∧ ((parse_date date_time = none ∨ pythonInt duration = none) →
      (add_schedule_item email date_time duration description m).map Prod.fst =
        some "Invalid date, time, or duration format. Please try again." ∧
      startsWithChars "Invalid date, time, or duration format".data
        "Invalid date, time, or duration format. Please try again.".data = true) := by
  constructor
  · intro dt n h1 h2 h3
    simp only [add_schedule_item, h1, h2, timedeltaOfMinutes, if_pos h3]
    simp
  · intro h
    rw [add_schedule_item_error_case email date_time duration description m h]
    exact ⟨rfl, by decide⟩

/-- C4 witness: the spec\x27s concrete example, with the confirmation
string echoing the description, the parsed date-time and the duration. -/
theorem C4_add_schedule_item_amended_witness :
    (add_schedule_item "u@example.com" "2024-03-15 14:00" "30" "Dentist" emptyMem).map Prod.fst =
      some "Added to schedule: Dentist on 2024-03-15 14:00 for 30 minutes" ∧
    strContains "Added to schedule: Dentist on 2024-03-15 14:00 for 30 minutes" "Dentist" = true ∧
    strContains "Added to schedule: Dentist on 2024-03-15 14:00 for 30 minutes" "2024-03-15 14:00" = true ∧
    strContains "Added to schedule: Dentist on 2024-03-15 14:00 for 30 minutes" "30" = true := by
  refine ⟨?_, by decide, by decide, by decide⟩
  have h := (C4_add_schedule_item_amended "u@example.com" "2024-03-15 14:00" "30" "Dentist"
    emptyMem).1 ⟨2024, 3, 15, 14, 0⟩ 30 (by decide) (by decide) (by decide)
  rw [h]
  decide

/-- C4 counterexample: a well-formed date-time and an integer duration
string on which `add_schedule_item` returns nothing at all (the
`timedelta` constructor raises `OverflowError`, which the function\x27s
`except ValueError` does not catch), refuting the claim that every
integer duration yields a confirmation string and that every failure
yields the literal error string. -/
theorem C4_counterexample :
    parse_date "2024-03-15 14:00" = some ⟨2024, 3, 15, 14, 0⟩ ∧
    pythonInt "10000000000000" = some 10000000000000 ∧
    (add_schedule_item "u@example.com" "2024-03-15 14:00" "10000000000000" "Dentist"
      emptyMem).isNone = true := by
  refine ⟨by decide, by decide, by decide⟩

/- ### C5 -/

/-- C5: `get_schedule` returns the literal invalid-format message (which
begins with "Invalid date format") when either range end fails to
parse; when both parse it returns the no-items literal exactly when the
scoped search comes back empty, and the stringified search result
otherwise. -/
theorem C5_get_schedule (email start_date end_date : String) (m : Mem0) :
    ((parse_date start_date = none ∨ parse_date end_date = none) →
      get_schedule email start_date end_date m =
        "Invalid date format. Please use YYYY-MM-DD or YYYY-MM-DD HH:MM." ∧
      startsWithChars "Invalid date format".data
        "Invalid date format. Please use YYYY-MM-DD or YYYY-MM-DD HH:MM.".data = true)
  ∧ (∀ s e, parse_date start_date = some s → parse_date end_date = some e →
      (Mem0.search m ("Schedule: " ++ fmtYMD s ++ " to " ++ fmtYMD e) email = [] →
        get_schedule email start_date end_date m =
          "No schedule items found for the given date range.")
    ∧ (Mem0.search m ("Schedule: " ++ fmtYMD s ++ " to " ++ fmtYMD e) email ≠ [] →
        get_schedule email start_date end_date m =
          pyStrList (Mem0.search m ("Schedule: " ++ fmtYMD s ++ " to " ++ fmtYMD e) email))) := by
  constructor
  · intro h
    refine ⟨?_, by decide⟩
    cases hs : parse_date start_date with
    | none => simp [get_schedule, hs]
    | some sdt =>
      rcases h with h | h
      · exact absurd hs (by rw [h]; simp)
      · simp [get_schedule, hs, h]
  · intro s e hs he
    constructor
    · intro hempty
      simp [get_schedule, hs, he, hempty]
    · intro hne
      cases hq : Mem0.search m ("Schedule: " ++ fmtYMD s ++ " to " ++ fmtYMD e) email with
      | nil => exact absurd hq hne
      | cons a rest => simp [get_schedule, hs, he, hq]

/-- C5 witness: a malformed start date hits the invalid-format literal;
a valid range over the empty store hits the no-items literal. -/
theorem C5_get_schedule_witness :
    get_schedule "u@example.com" "bad" "2024-01-07" emptyMem =
      "Invalid date format. Please use YYYY-MM-DD or YYYY-MM-DD HH:MM." ∧
    get_schedule "u@example.com" "2024-01-01" "2024-01-07" emptyMem =
      "No schedule items found for the given date range." := by
  constructor
  · exact ((C5_get_schedule "u@example.com" "bad" "2024-01-07" emptyMem).1
      (Or.inl (by decide))).1
  · exact ((C5_get_schedule "u@example.com" "2024-01-01" "2024-01-07" emptyMem).2
      ⟨2024, 1, 1, 0, 0⟩ ⟨2024, 1, 7, 0, 0⟩ (by decide) (by decide)).1 (by decide)

/- ### Structure of the regex matchers (for C10) -/

theorem isDig_of_bounds {c : Char} (h1 : '0' ≤ c) (h2 : c ≤ '9') : isDig c = true := by
  simp [isDig, h1, h2]

theorem firstSome_some {α β : Type} {l : List α} {f : α → Option β} {b : β}
    (h : firstSome l f = some b) : ∃ a, a ∈ l ∧ f a = some b := by
  induction l with
  | nil => simp [firstSome] at h
  | cons x xs ih =>
    rw [firstSome] at h
    cases hx : f x with
    | some y =>
      rw [hx] at h
      exact ⟨x, List.mem_cons_self x xs, by rw [hx]; exact h⟩
    | none =>
      rw [hx] at h
      obtain ⟨a, ha, hfa⟩ := ih h
      exact ⟨a, List.mem_cons_of_mem x ha, hfa⟩

theorem yearOf_split {cs r : List Char} {y : Nat} (h : yearOf cs = some (y, r)) :
    ∃ a b c d, cs = a :: b :: c :: d :: r ∧
      isDig a = true ∧ isDig b = true ∧ isDig c = true ∧ isDig d = true := by
  match cs with
  | [] => simp [yearOf] at h
  | [a] => simp [yearOf] at h
  | [a, b] => simp [yearOf] at h
  | [a, b, c] => simp [yearOf] at h
  | a :: b :: c :: d :: rest =>
    simp only [yearOf] at h
    split at h
    · rename_i hd
      simp only [Option.some_inj, Prod.mk.injEq] at h
      exact ⟨a, b, c, d, by rw [h.2], hd.1, hd.2.1, hd.2.2.1, hd.2.2.2⟩
    · exact absurd h (by simp)

theorem monthCands_split {v : Nat} {r cs : List Char} (h : (v, r) ∈ monthCands cs) :
    ∃ pre, cs = pre ++ r ∧ pre.all isDig = true := by
  match cs with
  | [] => simp [monthCands] at h
  | [c1] =>
    simp only [monthCands] at h
    split at h
    · rename_i hc
      simp only [List.mem_singleton, Prod.mk.injEq] at h
      refine ⟨[c1], by simp [← h.2], ?_⟩
      simp [isDig_of_bounds (le_trans (by decide) hc.1) (le_trans hc.2 (by decide))]
    · simp at h
  | c1 :: c2 :: rest =>
    simp only [monthCands, List.mem_append] at h
    rcases h with (h | h) | h
    · split at h
      · rename_i hc
        simp only [List.mem_singleton, Prod.mk.injEq] at h
        refine ⟨[c1, c2], by simp [← h.2], ?_⟩
        simp [hc.1, isDig_of_bounds hc.2.1 (le_trans hc.2.2 (by decide))]
        all_goals decide
      · simp at h
    · split at h
      · rename_i hc
        simp only [List.mem_singleton, Prod.mk.injEq] at h
        refine ⟨[c1, c2], by simp [← h.2], ?_⟩
        simp [hc.1, isDig_of_bounds (le_trans (by decide) hc.2.1) hc.2.2]
        all_goals decide
      · simp at h
    · split at h
      · rename_i hc
        simp only [List.mem_singleton, Prod.mk.injEq] at h
        refine ⟨[c1], by simp [← h.2], ?_⟩
        simp [isDig_of_bounds (le_trans (by decide) hc.1) (le_trans hc.2 (by decide))]
      · simp at h

theorem dayCands_split {v : Nat} {r cs : List Char} (h : (v, r) ∈ dayCands cs) :
    ∃ pre, cs = pre ++ r ∧ pre.all isDig = true := by
  match cs with
  | [] => simp [dayCands] at h
  | [c1] =>
    simp only [dayCands] at h
    split at h
    · rename_i hc
      simp only [List.mem_singleton, Prod.mk.injEq] at h
      refine ⟨[c1], by simp [← h.2], ?_⟩
      simp [isDig_of_bounds (le_trans (by decide) hc.1) (le_trans hc.2 (by decide))]
    · simp at h
  | c1 :: c2 :: rest =>
    simp only [dayCands, List.mem_append] at h
    rcases h with ((h | h) | h) | h
    · split at h
      · rename_i hc
        simp only [List.mem_singleton, Prod.mk.injEq] at h
        refine ⟨[c1, c2], by simp [← h.2], ?_⟩
        simp [hc.1, isDig_of_bounds hc.2.1 (le_trans hc.2.2 (by decide))]
        all_goals decide
      · simp at h
    · split at h
      · rename_i hc
        simp only [List.mem_singleton, Prod.mk.injEq] at h
        refine ⟨[c1, c2], by simp [← h.2], ?_⟩
        simp [hc.2, isDig_of_bounds (le_trans (by decide) hc.1.1) (le_trans hc.1.2 (by decide))]
      · simp at h
    · split at h
      · rename_i hc
        simp only [List.mem_singleton, Prod.mk.injEq] at h
        refine ⟨[c1, c2], by simp [← h.2], ?_⟩
        simp [hc.1, isDig_of_bounds (le_trans (by decide) hc.2.1) hc.2.2]
        all_goals decide
      · simp at h
    · split at h
      · rename_i hc
        simp only [List.mem_singleton, Prod.mk.injEq] at h
        refine ⟨[c1], by simp [← h.2], ?_⟩
        simp [isDig_of_bounds (le_trans (by decide) hc.1) (le_trans hc.2 (by decide))]
      · simp at h

theorem matchYMD_chars {cs : List Char} {y m d : Nat}
    (h : matchYMD cs = some (y, m, d, [])) :
    ∀ ch ∈ cs, isDig ch = true ∨ ch = '-' := by
  unfold matchYMD at h
  split at h
  · simp at h
  · rename_i yv r0 hy
    split at h
    · rename_i r1
      obtain ⟨a, b, c, dd, hcs, ha, hb, hc, hd⟩ := yearOf_split hy
      obtain ⟨mc, hmc, hf⟩ := firstSome_some h
      obtain ⟨mv, mr⟩ := mc
      dsimp only at hf
      split at hf
      · rename_i r2
        obtain ⟨preM, hr1, hpreM⟩ := monthCands_split hmc
        cases hdc : dayCands r2 with
        | nil => rw [hdc] at hf; simp at hf
        | cons dc tl =>
          obtain ⟨dv, dr⟩ := dc
          rw [hdc] at hf
          simp only [Option.some_inj, Prod.mk.injEq] at hf
          have hdmem : (dv, dr) ∈ dayCands r2 := by
            rw [hdc]; exact List.mem_cons_self _ _
          obtain ⟨preD, hr2, hpreD⟩ := dayCands_split hdmem
          have hdr : dr = [] := hf.2.2.2
          intro ch hch
          rw [hcs, hr1, hr2, hdr] at hch
          simp only [List.mem_cons, List.mem_append, List.not_mem_nil, or_false] at hch
          rcases hch with rfl | rfl | rfl | rfl | rfl | hch
          · exact Or.inl ha
          · exact Or.inl hb
          · exact Or.inl hc
          · exact Or.inl hd
          · exact Or.inr rfl
          rcases hch with hch | hch
          · exact Or.inl (List.all_eq_true.mp hpreM ch hch)
          rcases hch with rfl | hch
          · exact Or.inr rfl
          · exact Or.inl (List.all_eq_true.mp hpreD ch hch)
      · simp at hf
    · simp at h

theorem matchYMDHM_space {cs : List Char} {dt : DateTime} {lo : List Char}
    (h : matchYMDHM cs = some (dt, lo)) : ' ' ∈ cs := by
  unfold matchYMDHM at h
  split at h
  · simp at h
  · rename_i yv r0 hy
    split at h
    · rename_i r1
      obtain ⟨a, b, c, dd, hcs, -, -, -, -⟩ := yearOf_split hy
      obtain ⟨mc, hmc, hf⟩ := firstSome_some h
      obtain ⟨mv, mr⟩ := mc
      dsimp only at hf
      split at hf
      · rename_i r2
        obtain ⟨preM, hr1, -⟩ := monthCands_split hmc
        obtain ⟨dc, hdmem, hg⟩ := firstSome_some hf
        obtain ⟨dv, dr⟩ := dc
        dsimp only at hg
        split at hg
        · rename_i r3
          obtain ⟨preD, hr2, -⟩ := dayCands_split hdmem
          rw [hcs, hr1, hr2]
          simp
        · simp at hg
      · simp at hf
    · simp at h

theorem strptimeYMD_none_of_HM {s : String} {dt : DateTime}
    (h : strptimeYMDHM s = some dt) : strptimeYMD s = none := by
  have hsp : ' ' ∈ s.data := by
    unfold strptimeYMDHM at h
    cases hm : matchYMDHM s.data with
    | none => simp [hm] at h
    | some p =>
      obtain ⟨dt', lo⟩ := p
      exact matchYMDHM_space hm
  unfold strptimeYMD
  cases hm : matchYMD s.data with
  | none => rfl
  | some q =>
    obtain ⟨y, m, d, l⟩ := q
    cases l with
    | nil =>
      rcases matchYMD_chars hm ' ' hsp with hdig | heq
      · exact absurd hdig (by decide)
      · exact absurd heq (by decide)
    | cons ch t => rfl

/- ### C10 -/

/-- C10: the day-of-week tool accepts only the bare `YYYY-MM-DD` format:
any input that the shared two-format parser accepts in its
`YYYY-MM-DD HH:MM` branch is rejected by `get_day_of_week` with the
literal invalid-format message. -/
theorem C10_bare_format_only (s : String) (dt : DateTime)
    (h : strptimeYMDHM s = some dt) :
    parse_date s = some dt ∧
    get_day_of_week s = "Invalid date format. Please use YYYY-MM-DD." := by
  refine ⟨parse_date_hm h, ?_⟩
  unfold get_day_of_week
  rw [strptimeYMD_none_of_HM h]

/-- C10 witness: `"2024-01-01 10:00"` parses with the shared parser but
is rejected by `get_day_of_week`. -/
theorem C10_bare_format_only_witness :
    parse_date "2024-01-01 10:00" = some ⟨2024, 1, 1, 10, 0⟩ ∧
    get_day_of_week "2024-01-01 10:00" = "Invalid date format. Please use YYYY-MM-DD." :=
  C10_bare_format_only "2024-01-01 10:00" ⟨2024, 1, 1, 10, 0⟩ (by decide)

/- ### Graph lemmas -/

theorem lastToolCalls_eq {msgs : List Msg} {c : String} {tcs : List ToolCall}
    (h : msgs.getLast? = some (Msg.ai c tcs)) : lastToolCalls msgs = tcs := by
  unfold lastToolCalls
  rw [h]

theorem runToolCall_id (env : Env) (m : Mem0) (tc : ToolCall) :
    toolMsgId (runToolCall env m tc).1 = tc.id := by
  unfold runToolCall
  cases h : runToolRaw env m tc.req with
  | some p => obtain ⟨out, m1⟩ := p; rfl
  | none => rfl

theorem tool_node_length (env : Env) :
    ∀ (tcs : List ToolCall) (m : Mem0), (tool_node env m tcs).1.length = tcs.length := by
  intro tcs
  induction tcs with
  | nil => intro m; rfl
  | cons tc rest ih =>
    intro m
    simp only [tool_node, List.length_cons]
    rw [ih]

theorem tool_node_ids (env : Env) :
    ∀ (tcs : List ToolCall) (m : Mem0),
      (tool_node env m tcs).1.map toolMsgId = tcs.map ToolCall.id := by
  intro tcs
  induction tcs with
  | nil => intro m; rfl
  | cons tc rest ih =>
    intro m
    simp only [tool_node, List.map_cons]
    rw [ih, runToolCall_id]

/- ### C2 -/

/-- C2: from a state whose most recent message is a model response, a
response with no tool calls routes to `END`, its content is the state\x27s
final content, and the graph run that produced it terminates after that
single agent visit; a response with `N ≥ 1` tool calls routes to the
tools node, which appends exactly `N` tool-result messages (one per
requested call, carrying the requests\x27 ids in request order) and hands
control back to the agent node unconditionally. -/
theorem C2_agent_graph_routing (env : Env) (oracle : Oracle) (st1 : AgentState) (m1 : Mem0)
    (c : String) (tcs : List ToolCall)
    (h : st1.messages.getLast? = some (Msg.ai c tcs)) :
    (tcs = [] → should_continue st1.messages = Route.stop ∧ lastContent st1.messages = c ∧
      ∀ fuel st0 m0, call_model oracle st0 m0 = (st1, m1) →
        runFrom oracle env (fuel + 1) NodeName.agent st0 m0 = some (st1, m1))
  ∧ (tcs ≠ [] → should_continue st1.messages = Route.tools ∧
      (tool_node env m1 tcs).1.length = tcs.length ∧
      (tool_node env m1 tcs).1.map toolMsgId = tcs.map ToolCall.id ∧
      ∀ fuel st0 m0, call_model oracle st0 m0 = (st1, m1) →
        runFrom oracle env (fuel + 2) NodeName.agent st0 m0 =
          runFrom oracle env fuel NodeName.agent
            { st1 with messages := st1.messages ++ (tool_node env m1 tcs).1 }
            (tool_node env m1 tcs).2) := by
  have hl : lastToolCalls st1.messages = tcs := lastToolCalls_eq h
  constructor
  · intro hnil
    have hsc : should_continue st1.messages = Route.stop := by
      simp [should_continue, hl, hnil]
    refine ⟨hsc, ?_, ?_⟩
    · unfold lastContent
      rw [h]
      rfl
    · intro fuel st0 m0 hcm
      simp only [runFrom, hcm, hsc]
  · intro hne
    have hsc : should_continue st1.messages = Route.tools := by
      simp [should_continue, hl, hne]
    refine ⟨hsc, tool_node_length env tcs m1, tool_node_ids env tcs m1, ?_⟩
    intro fuel st0 m0 hcm
    show runFrom oracle env (fuel + 1 + 1) NodeName.agent st0 m0 = _
    simp only [runFrom, hcm, hsc, hl]

/-- C2 witness: a no-tool-call response terminates in one agent visit;
a two-call response yields two id-matched tool results and returns to
the agent node. -/
def c2Oracle : Oracle := fun _ => ⟨"done", []⟩

def c2St0 : AgentState := ⟨[Msg.human "hi"], "u@x"⟩

def c2St1 : AgentState := ⟨[Msg.human "hi", Msg.ai "done" []], "u@x"⟩

def c2M1 : Mem0 := Mem0.add emptyMem "User: hi\nAssistant: done" "u@x"

def c2Tcs : List ToolCall :=
  [⟨"id1", ToolReq.get_current_date⟩, ⟨"id2", ToolReq.get_day_of_week "2024-01-01"⟩]

def c2OracleT : Oracle := fun _ => ⟨"", c2Tcs⟩

def c2St1T : AgentState := ⟨[Msg.human "hi", Msg.ai "" c2Tcs], "u@x"⟩

def c2M1T : Mem0 := Mem0.add emptyMem "User: hi\nAssistant: " "u@x"

def c2Env : Env := ⟨"2024-01-01"⟩

theorem C2_agent_graph_routing_witness :
    (should_continue c2St1.messages = Route.stop ∧
     lastContent c2St1.messages = "done" ∧
     runFrom c2Oracle c2Env 1 NodeName.agent c2St0 emptyMem = some (c2St1, c2M1)) ∧
    (should_continue c2St1T.messages = Route.tools ∧
     (tool_node c2Env c2M1T c2Tcs).1.length = c2Tcs.length ∧
     (tool_node c2Env c2M1T c2Tcs).1.map toolMsgId = c2Tcs.map ToolCall.id ∧
     runFrom c2OracleT c2Env 2 NodeName.agent c2St0 emptyMem =
       runFrom c2OracleT c2Env 0 NodeName.agent
         { c2St1T with messages := c2St1T.messages ++ (tool_node c2Env c2M1T c2Tcs).1 }
         (tool_node c2Env c2M1T c2Tcs).2) := by
  constructor
  · have hx := (C2_agent_graph_routing c2Env c2Oracle c2St1 c2M1 "done" [] rfl).1 rfl
    exact ⟨hx.1, hx.2.1, hx.2.2 0 c2St0 emptyMem rfl⟩
  · have hx := (C2_agent_graph_routing c2Env c2OracleT c2St1T c2M1T "" c2Tcs rfl).2 (by decide)
    exact ⟨hx.1, hx.2.1, hx.2.2.1, hx.2.2.2 0 c2St0 emptyMem rfl⟩

/- ### C1 (amended) -/

/-- C1 as amended: the exchange append to the Memory Store happens on
*every* agent-node visit, not only on reaching `END`: each `call_model`
invocation appends exactly one record under the state\x27s email pairing
the current last state message (the latest user message on the first
visit, the last tool result on later visits) with that visit\x27s response
content.  Consequently, when the first response carries no tool calls
the turn reaches `END` in one visit having appended exactly that one
exchange record.  (The claim\x27s once-per-turn version is refuted by
`C1_counterexample`.) -/
theorem C1_memory_append_each_agent_visit (oracle : Oracle) (env : Env)
    (st : AgentState) (m0 : Mem0) :
    ((call_model oracle st m0).2.records =
      m0.records ++ [(st.email,
        "User: " ++ lastContent st.messages ++ "\nAssistant: " ++
          (oracle (Msg.system (system_message_content st.email) :: st.messages)).content)])
  ∧ ((oracle (Msg.system (system_message_content st.email) :: st.messages)).tool_calls = [] →
      runFrom oracle env 1 NodeName.agent st m0 =
        some ({ st with messages := st.messages ++
            [Msg.ai (oracle (Msg.system (system_message_content st.email) :: st.messages)).content
              []] },
          (call_model oracle st m0).2)) := by
  constructor
  · rfl
  · intro hempty
    have hsc : should_continue (call_model oracle st m0).1.messages = Route.stop := by
      unfold should_continue lastToolCalls
      simp only [call_model]
      simp only [List.getLast?_concat]
      simp [hempty]
    simp only [runFrom, hsc]
    simp only [call_model, hempty]

/-- C1 amended-claim witness: a single no-tool-call visit terminates the
turn with the one appended exchange record. -/
def c1bOracle : Oracle := fun _ => ⟨"done", []⟩

def c1bEnv : Env := ⟨"2024-01-01"⟩

theorem C1_memory_append_each_agent_visit_witness :
    runFrom c1bOracle c1bEnv 1 NodeName.agent ⟨[Msg.human "hi"], "u@x"⟩ emptyMem =
      some (⟨[Msg.human "hi", Msg.ai "done" []], "u@x"⟩,
        (call_model c1bOracle ⟨[Msg.human "hi"], "u@x"⟩ emptyMem).2) :=
  (C1_memory_append_each_agent_visit c1bOracle c1bEnv ⟨[Msg.human "hi"], "u@x"⟩ emptyMem).2 rfl

/-- Oracle for the C1 counterexample: request one tool call first, then
answer with no tool calls once a tool result is present. -/
def c1Oracle : Oracle := fun msgs =>
  if msgs.any (fun msg => match msg with | Msg.tool _ _ => true | _ => false) then
    { content := "You have no meetings today.", tool_calls := [] }
  else
    { content := "", tool_calls := [{ id := "call_1", req := ToolReq.get_current_date }] }

def c1Env : Env := ⟨"2024-01-01"⟩

/-- Store contents after one full turn driven by `c1Oracle`. -/
def c1Records : List (String × String) :=
  match runTurn c1Oracle c1Env 3
      ⟨[Msg.human "What is on my schedule?"], "alice@example.com"⟩ emptyMem with
  | some (_, m) => m.records
  | none => []

/-- C1 counterexample: a turn with one tool round-trip appends the
exchange record *twice* (once per agent visit), the first append
happening before the terminal no-tool-call response exists and the
second pairing the tool result — not the user message — with the final
content.  This refutes "exactly once per turn and only after the
terminal model response". -/
theorem C1_counterexample :
    c1Records =
      [("alice@example.com", "User: What is on my schedule?\nAssistant: "),
       ("alice@example.com",
        "User: 2024-01-01\nAssistant: You have no meetings today.")] ∧
    (c1Records.filter (fun r => startsWithChars "User: ".data r.2.data)).length = 2 := by
  constructor
  · rfl
  · rfl

/- ### C3 -/

/-- C3: every Memory Store operation is scoped by a user identifier:
a search for user `A` only returns texts of records stored under `A`
(so for any `B ≠ A` it never returns a record tagged `B`), and the agent
loop\x27s own write in `call_model` is tagged with the acting state\x27s
email. -/
theorem C3_memory_isolation (m : Mem0) (q A B t : String) (oracle : Oracle)
    (st : AgentState) (hAB : A ≠ B) :
    (t ∈ Mem0.search m q A → (A, t) ∈ m.records)
  ∧ (∀ r, r ∈ Mem0.searchRecords m q A → r.1 = A ∧ r.1 ≠ B)
  ∧ (((call_model oracle st m).2.records.getLast?).map Prod.fst = some st.email) := by
  have hscope : ∀ r, r ∈ Mem0.searchRecords m q A → r.1 = A ∧ r ∈ m.records := by
    intro r hr
    unfold Mem0.searchRecords at hr
    have h2 := List.mem_filter.mp hr
    refine ⟨?_, h2.1⟩
    have := h2.2
    simp only [Bool.and_eq_true, beq_iff_eq] at this
    exact this.1
  refine ⟨?_, ?_, ?_⟩
  · intro ht
    unfold Mem0.search at ht
    obtain ⟨r, hr, hrt⟩ := List.mem_map.mp ht
    obtain ⟨h1, h2⟩ := hscope r hr
    have : r = (A, t) := by
      obtain ⟨u, txt⟩ := r
      simp only at hrt h1
      simp [h1, hrt]
    rw [← this]
    exact h2
  · intro r hr
    obtain ⟨h1, -⟩ := hscope r hr
    exact ⟨h1, by rw [h1]; exact hAB⟩
  · simp only [call_model, Mem0.add]
    simp [List.getLast?_concat]

/-- C3 witness: with two users\x27 records in the store, a search scoped to
one user only surfaces that user\x27s record, and a concrete `call_model`
write is tagged with the acting email. -/
def c3Mem : Mem0 := ⟨fun _ _ => true, [("a@x", "likes tea"), ("b@x", "likes coffee")]⟩

def c3Oracle : Oracle := fun _ => ⟨"ok", []⟩

theorem C3_memory_isolation_witness :
    ("a@x", "likes tea") ∈ c3Mem.records ∧
    (("a@x", "likes tea").1 = "a@x" ∧ ("a@x", "likes tea").1 ≠ "b@x") ∧
    ((call_model c3Oracle ⟨[Msg.human "hi"], "a@x"⟩ c3Mem).2.records.getLast?).map Prod.fst =
      some "a@x" := by
  have hx := C3_memory_isolation c3Mem "tea" "a@x" "b@x" "likes tea" c3Oracle
    ⟨[Msg.human "hi"], "a@x"⟩ (by decide)
  exact ⟨hx.1 (by decide), hx.2.1 ("a@x", "likes tea") (by decide), hx.2.2⟩

/- ### C8 -/

theorem lookupThread_saveThread (cp : MemorySaver) (tid : String) (msgs : List Msg) :
    lookupThread (saveThread cp tid msgs) tid = msgs := by
  simp [lookupThread, saveThread, List.find?_cons]

/-- Running the graph only appends messages and preserves the email. -/
theorem runFrom_extends (oracle : Oracle) (env : Env) :
    ∀ (fuel : Nat) (node : NodeName) (st : AgentState) (m0 : Mem0)
      (fin : AgentState) (m1 : Mem0),
      runFrom oracle env fuel node st m0 = some (fin, m1) →
      (∃ t, fin.messages = st.messages ++ t) ∧ fin.email = st.email := by
  intro fuel
  induction fuel with
  | zero =>
    intro node st m0 fin m1 h
    simp [runFrom] at h
  | succ n ih =>
    intro node st m0 fin m1 h
    cases node with
    | agent =>
      simp only [runFrom] at h
      split at h
      · simp only [Option.some_inj, Prod.mk.injEq] at h
        obtain ⟨h1, -⟩ := h
        rw [← h1]
        exact ⟨⟨_, rfl⟩, rfl⟩
      · obtain ⟨⟨t, ht⟩, he⟩ := ih NodeName.tools _ _ _ _ h
        constructor
        · refine ⟨[Msg.ai (oracle (Msg.system (system_message_content st.email) ::
            st.messages)).content
              (oracle (Msg.system (system_message_content st.email) ::
                st.messages)).tool_calls] ++ t, ?_⟩
          rw [ht]
          simp [call_model]
        · rw [he]
          rfl
    | tools =>
      simp only [runFrom] at h
      obtain ⟨⟨t, ht⟩, he⟩ := ih NodeName.agent _ _ _ _ h
      refine ⟨⟨(tool_node env m0 (lastToolCalls st.messages)).1 ++ t, ?_⟩, he⟩
      rw [ht]
      simp

/-- C8: two successive conversation-runner invocations with the same
email share the thread keyed by that email: after the second run, the
persisted thread is the first run\x27s persisted history followed by the
second user message and the second turn\x27s new messages — the prior
history is extended, never replaced. -/
theorem C8_thread_resumption (oracle : Oracle) (env : Env) (fuel1 fuel2 : Nat)
    (in1 in2 email : String) (cp : MemorySaver) (m0 : Mem0)
    (a1 : String) (cp1 : MemorySaver) (m1 : Mem0)
    (a2 : String) (cp2 : MemorySaver) (m2 : Mem0)
    (h1 : run_conversation oracle env fuel1 in1 email cp m0 = some (a1, cp1, m1))
    (h2 : run_conversation oracle env fuel2 in2 email cp1 m1 = some (a2, cp2, m2)) :
    ∃ rest, lookupThread cp2 email = lookupThread cp1 email ++ (Msg.human in2 :: rest) := by
  simp only [run_conversation, runTurn] at h2
  split at h2
  · rename_i fin2 m2' hr
    simp only [Option.some_inj, Prod.mk.injEq] at h2
    obtain ⟨-, hcp2, -⟩ := h2
    obtain ⟨⟨t, ht⟩, -⟩ := runFrom_extends oracle env fuel2 NodeName.agent _ _ _ _ hr
    refine ⟨t, ?_⟩
    rw [← hcp2, lookupThread_saveThread, ht]
    simp
  · simp at h2

/-- C8 witness: two concrete runs under the same email, the second
resuming the first\x27s persisted thread. -/
def c8Oracle : Oracle := fun _ => ⟨"ok", []⟩

def c8Env : Env := ⟨"2024-01-01"⟩

def c8cp1 : MemorySaver := saveThread [] "u@x" [Msg.human "hello", Msg.ai "ok" []]

def c8m1 : Mem0 := Mem0.add emptyMem "User: hello\nAssistant: ok" "u@x"

def c8cp2 : MemorySaver :=
  saveThread c8cp1 "u@x"
    [Msg.human "hello", Msg.ai "ok" [], Msg.human "again", Msg.ai "ok" []]

def c8m2 : Mem0 := Mem0.add c8m1 "User: again\nAssistant: ok" "u@x"

theorem C8_thread_resumption_witness :
    ∃ rest, lookupThread c8cp2 "u@x" = lookupThread c8cp1 "u@x" ++ (Msg.human "again" :: rest) :=
  C8_thread_resumption c8Oracle c8Env 1 1 "hello" "again" "u@x" [] emptyMem
    "ok" c8cp1 c8m1 "ok" c8cp2 c8m2 rfl rfl
